import Mathlib

/-!
Verification of the saved-views store of `svelte-table-views`
(`src/lib/stores/saved-views.ts`), shallowly embedded in Lean 4.

Modelling conventions:
* JavaScript numbers used as epoch-millisecond timestamps and counters are
  modelled as `Int`.
* The opaque `value : any` field of `FilterCondition` is a type parameter
  `Val`; the store never inspects it.
* `Date.now()` is modelled as an explicit `now : Int` argument, one per
  operation (each operation is logically synchronous, §5 of the spec).
* `crypto.randomUUID()` is modelled as an explicit `freshId : String`
  argument supplied by the environment.
* The `browser` environment check is an explicit `browser : Bool` argument;
  operations that `throw` on the server return `Except.error`.
* A TypeScript `Partial<SavedView>` is `ViewPatch`: each field is an
  `Option`, `none` meaning the key is absent from the object, so that the
  JavaScript spread `{...v, ...updates}` is field-wise `Option.getD`.
* The JavaScript in-place stable `Array.prototype.sort` is modelled with
  `List.insertionSort`, which is stable and sorts by the same comparator.
-/

inductive SortDirection : Type where
  | asc : SortDirection
  | desc : SortDirection
deriving DecidableEq, Repr

structure FilterCondition (Val : Type) : Type where
  columnId : String
  operator : String
  value : Val
deriving DecidableEq, Repr

structure SortConfig : Type where
  columnId : String
  direction : SortDirection
deriving DecidableEq, Repr

structure TableConfig (Val : Type) : Type where
  filters : List (FilterCondition Val)
  sort : Option SortConfig
  columns : List String
  columnOrder : List String
  columnWidths : List (String × Int)
  pageSize : Int
  grouping : Option (List String)
deriving DecidableEq, Repr

structure SavedView (Val : Type) : Type where
  id : String
  name : String
  description : Option String
  config : TableConfig Val
  originalQuery : Option String
  createdAt : Int
  updatedAt : Int
  usageCount : Int
  lastUsed : Int
deriving DecidableEq, Repr

/-- Type `SavedViewInput`: the TS `Omit` of `SavedView` without `id`,
`createdAt`, `updatedAt`, `usageCount`, `lastUsed`. -/
structure SavedViewInput (Val : Type) : Type where
  name : String
  description : Option String
  config : TableConfig Val
  originalQuery : Option String
deriving DecidableEq, Repr

/-- The TS `Partial<SavedView>`: every field optional; `none` = key absent. -/
structure ViewPatch (Val : Type) : Type where
  id : Option String
  name : Option String
  description : Option (Option String)
  config : Option (TableConfig Val)
  originalQuery : Option (Option String)
  createdAt : Option Int
  updatedAt : Option Int
  usageCount : Option Int
  lastUsed : Option Int
deriving DecidableEq, Repr

variable {Val : Type}

/-- The all-absent patch `{}`. -/
def ViewPatch.empty : ViewPatch Val :=
  ⟨none, none, none, none, none, none, none, none, none⟩

/-- The JavaScript object spread `{...v, ...u}`: each key present in `u`
replaces the corresponding field of `v`. -/
def spreadView (v : SavedView Val) (u : ViewPatch Val) : SavedView Val where
  id := u.id.getD v.id
  name := u.name.getD v.name
  description := u.description.getD v.description
  config := u.config.getD v.config
  originalQuery := u.originalQuery.getD v.originalQuery
  createdAt := u.createdAt.getD v.createdAt
  updatedAt := u.updatedAt.getD v.updatedAt
  usageCount := u.usageCount.getD v.usageCount
  lastUsed := u.lastUsed.getD v.lastUsed

/-- The store's state: the `savedViews` writable plus the two transient
writables `activeViewId` and `activeViewModified`. -/
structure StoreState (Val : Type) : Type where
  savedViews : List (SavedView Val)
  activeViewId : Option String
  activeViewModified : Bool
deriving DecidableEq, Repr

/-- The lookup `views.find((v) => v.id === id)`. -/
def lookupView (s : StoreState Val) (i : String) : Option (SavedView Val) :=
  s.savedViews.find? (fun v => v.id == i)

/-- Action `viewActions.save`: throws off-browser; otherwise builds the new view
with `id = crypto.randomUUID()`, `createdAt = updatedAt = lastUsed = now`,
`usageCount = 0`, and appends it (`[...views, newView]`). -/
def viewActions.save (browser : Bool) (s : StoreState Val)
    (input : SavedViewInput Val) (freshId : String) (now : Int) :
    Except String (StoreState Val × SavedView Val) :=
  if !browser then .error "Cannot save views on server"
  else
    let newView : SavedView Val :=
      { id := freshId
        name := input.name
        description := input.description
        config := input.config
        originalQuery := input.originalQuery
        createdAt := now
        updatedAt := now
        usageCount := 0
        lastUsed := now }
    .ok ({ s with savedViews := s.savedViews ++ [newView] }, newView)

/-- Action `viewActions.load`: throws off-browser; if the id is found, bumps
`usageCount` and `lastUsed` on every view with that id, sets
`activeViewId = id`, `activeViewModified = false`; always returns the view
object found *before* the map (or `undefined`). -/
def viewActions.load (browser : Bool) (s : StoreState Val) (i : String)
    (now : Int) : Except String (StoreState Val × Option (SavedView Val)) :=
  if !browser then .error "Cannot load views on server"
  else
    match s.savedViews.find? (fun v => v.id == i) with
    | some view =>
        .ok ({ savedViews := s.savedViews.map (fun v =>
                 if v.id == i then
                   { v with usageCount := v.usageCount + 1, lastUsed := now }
                 else v)
               activeViewId := some i
               activeViewModified := false }, some view)
    | none => .ok (s, none)

/-- Action `viewActions.update`: throws off-browser; if the id is found, replaces
each matching view by `{...v, ...updates, updatedAt: Date.now()}` and sets
`activeViewModified = false`; otherwise leaves the state unchanged. -/
def viewActions.update (browser : Bool) (s : StoreState Val) (i : String)
    (updates : ViewPatch Val) (now : Int) : Except String (StoreState Val) :=
  if !browser then .error "Cannot update views on server"
  else
    match s.savedViews.find? (fun v => v.id == i) with
    | some _ =>
        .ok { s with
              savedViews := s.savedViews.map (fun v =>
                if v.id == i then { spreadView v updates with updatedAt := now }
                else v)
              activeViewModified := false }
    | none => .ok s

/-- Action `viewActions.delete`: throws off-browser; if the id is found, filters it
out and, when it was the active view, clears `activeViewId` and
`activeViewModified`; otherwise leaves the state unchanged. -/
def viewActions.delete (browser : Bool) (s : StoreState Val) (i : String) :
    Except String (StoreState Val) :=
  if !browser then .error "Cannot delete views on server"
  else
    match s.savedViews.find? (fun v => v.id == i) with
    | some _ =>
        let views' := s.savedViews.filter (fun v => !(v.id == i))
        if s.activeViewId == some i then
          .ok { savedViews := views', activeViewId := none,
                activeViewModified := false }
        else
          .ok { s with savedViews := views' }
    | none => .ok s

/-- Action `viewActions.rename`: throws off-browser; if the id is found, replaces
each matching view by `{...v, name: newName, updatedAt: Date.now()}`.
It does not touch `activeViewId` or `activeViewModified`. -/
def viewActions.rename (browser : Bool) (s : StoreState Val) (i : String)
    (newName : String) (now : Int) : Except String (StoreState Val) :=
  if !browser then .error "Cannot rename views on server"
  else
    match s.savedViews.find? (fun v => v.id == i) with
    | some _ =>
        .ok { s with
              savedViews := s.savedViews.map (fun v =>
                if v.id == i then { v with name := newName, updatedAt := now }
                else v) }
    | none => .ok s

/-- Action `viewActions.markModified`. -/
def viewActions.markModified (s : StoreState Val) : StoreState Val :=
  { s with activeViewModified := true }

/-- Action `viewActions.clearActive`. -/
def viewActions.clearActive (s : StoreState Val) : StoreState Val :=
  { s with activeViewId := none, activeViewModified := false }

/-- Action `viewActions.nameExists`: `views.some((v) => v.name === name && v.id !==
excludeId)`; `false` off-browser. -/
def viewActions.nameExists (browser : Bool) (s : StoreState Val)
    (name : String) (excludeId : Option String) : Bool :=
  if !browser then false
  else s.savedViews.any (fun v => v.name == name && !(some v.id == excludeId))

structure StorageStats : Type where
  count : Int
  limit : Int
  percentFull : Int
deriving DecidableEq, Repr

/-- JavaScript `Math.round`: round half toward positive infinity. -/
def jsRound (q : ℚ) : Int := ⌊q + 1 / 2⌋

/-- Action `viewActions.getStorageStats`: `{count: 0, limit: 50, percentFull: 0}`
off-browser, else `count = views.length`, `limit = 50`,
`percentFull = Math.round((count / limit) * 100)`. -/
def viewActions.getStorageStats (browser : Bool) (s : StoreState Val) :
    StorageStats :=
  if !browser then { count := 0, limit := 50, percentFull := 0 }
  else
    let count : Int := s.savedViews.length
    let limit : Int := 50
    { count := count
      limit := limit
      percentFull := jsRound ((count : ℚ) / (limit : ℚ) * 100) }

/-- The descending-`lastUsed` comparator of
`sort((a, b) => b.lastUsed - a.lastUsed)`. -/
def byLastUsedDesc (a b : SavedView Val) : Prop := b.lastUsed ≤ a.lastUsed

instance : DecidableRel (@byLastUsedDesc Val) :=
  fun a b => inferInstanceAs (Decidable (b.lastUsed ≤ a.lastUsed))

/-- The `recentViews` derived store: filter to `lastUsed` within the last
`7 * 24 * 60 * 60 * 1000` ms, stable-sort descending by `lastUsed`,
`slice(0, 5)`. -/
def recentViews (views : List (SavedView Val)) (now : Int) :
    List (SavedView Val) :=
  let sevenDaysAgo := now - 7 * 24 * 60 * 60 * 1000
  (((views.filter (fun v => sevenDaysAgo ≤ v.lastUsed)).insertionSort
      byLastUsedDesc).take 5)

/-! ### Operation sequences over the store -/

/-- One store operation, with the environment inputs (`Date.now()` values and
the generated id for `save`) made explicit. -/
inductive Op (Val : Type) : Type where
  | save : SavedViewInput Val → String → Int → Op Val
  | load : String → Int → Op Val
  | update : String → ViewPatch Val → Int → Op Val
  | rename : String → String → Int → Op Val
  | del : String → Op Val

/-- Run one operation in the browser environment; on-browser the operations
never throw, so the error branches are unreachable. -/
def applyOp (s : StoreState Val) : Op Val → StoreState Val
  | .save input freshId now =>
      match viewActions.save true s input freshId now with
      | .ok (s', _) => s'
      | .error _ => s
  | .load i now =>
      match viewActions.load true s i now with
      | .ok (s', _) => s'
      | .error _ => s
  | .update i u now =>
      match viewActions.update true s i u now with
      | .ok s' => s'
      | .error _ => s
  | .rename i n now =>
      match viewActions.rename true s i n now with
      | .ok s' => s'
      | .error _ => s
  | .del i =>
      match viewActions.delete true s i with
      | .ok s' => s'
      | .error _ => s

def applyOps (s : StoreState Val) (ops : List (Op Val)) : StoreState Val :=
  ops.foldl applyOp s

/-- A patch that leaves the store-managed fields (`id`, `createdAt`,
`usageCount`, `lastUsed`) unsupplied. -/
def ViewPatch.tame (u : ViewPatch Val) : Prop :=
  u.id = none ∧ u.createdAt = none ∧ u.usageCount = none ∧ u.lastUsed = none

def Op.tame : Op Val → Prop
  | .update _ u _ => u.tame
  | _ => True

/-- Every timestamp stored in the state is at most `t`. -/
def stampsLE (s : StoreState Val) (t : Int) : Prop :=
  ∀ v ∈ s.savedViews, v.createdAt ≤ t ∧ v.updatedAt ≤ t ∧ v.lastUsed ≤ t

/-- The operation's `Date.now()` value does not lie before any timestamp
already stored (a monotone clock). -/
def Op.clockOk (s : StoreState Val) : Op Val → Prop
  | .save _ _ now => stampsLE s now
  | .load _ now => stampsLE s now
  | .update _ _ now => stampsLE s now
  | .rename _ _ now => stampsLE s now
  | .del _ => True

def opsClockOk : StoreState Val → List (Op Val) → Prop
  | _, [] => True
  | s, op :: rest => op.clockOk s ∧ opsClockOk (applyOp s op) rest

/-- Every view in the state satisfies `createdAt ≤ updatedAt`. -/
def timesWF (s : StoreState Val) : Prop :=
  ∀ v ∈ s.savedViews, v.createdAt ≤ v.updatedAt

/-- The view with the given id survives every intermediate state of the
operation sequence. -/
def trackedAlive : StoreState Val → List (Op Val) → String → Prop
  | _, [], _ => True
  | s, op :: rest, i =>
      (lookupView (applyOp s op) i).isSome ∧ trackedAlive (applyOp s op) rest i

/-- The lifetime relation of the spec's invariants: identity and creation
time fixed, usage statistics non-decreasing. -/
def evolves (v w : SavedView Val) : Prop :=
  w.id = v.id ∧ w.createdAt = v.createdAt ∧ v.usageCount ≤ w.usageCount ∧
    v.lastUsed ≤ w.lastUsed

/-! ### Concrete fixtures used by witnesses and counterexamples -/

def cfg0 : TableConfig Unit :=
  { filters := [], sort := none, columns := [], columnOrder := [],
    columnWidths := [], pageSize := 25, grouping := none }

def mkView (i n : String) (created updated count used : Int) : SavedView Unit :=
  { id := i, name := n, description := none, config := cfg0,
    originalQuery := none, createdAt := created, updatedAt := updated,
    usageCount := count, lastUsed := used }

def input0 : SavedViewInput Unit :=
  { name := "Alpha", description := none, config := cfg0,
    originalQuery := none }

def st1 : StoreState Unit :=
  { savedViews := [mkView "a" "A" 0 0 0 0], activeViewId := none,
    activeViewModified := false }

def nv4 : SavedView Unit := mkView "b" "Alpha" 5 5 0 5

/-- A state already holding 50 views named "Alpha". -/
def st50 : StoreState Unit :=
  { savedViews := List.replicate 50 (mkView "a" "Alpha" 0 0 0 0),
    activeViewId := none, activeViewModified := false }

/-! ### Claims -/

/-- C4: `save(input)` appends a single new view to the collection, leaving
the existing views and the active-view fields untouched; the new view's id
is the generated fresh id (unique among previously existing ids), its
`createdAt`, `updatedAt` and `lastUsed` all equal `now`, its `usageCount`
is `0`, and its caller-supplied fields come from the input. -/
theorem save_appends_fresh_view (s : StoreState Val)
    (input : SavedViewInput Val) (freshId : String) (now : Int)
    (s' : StoreState Val) (nv : SavedView Val)
    (hrun : viewActions.save true s input freshId now = .ok (s', nv))
    (hfresh : ∀ v ∈ s.savedViews, v.id ≠ freshId) :
    s'.savedViews = s.savedViews ++ [nv] ∧
    s'.activeViewId = s.activeViewId ∧
    s'.activeViewModified = s.activeViewModified ∧
    nv.id = freshId ∧ (∀ v ∈ s.savedViews, v.id ≠ nv.id) ∧
    nv.createdAt = now ∧ nv.updatedAt = now ∧ nv.lastUsed = now ∧
    nv.usageCount = 0 ∧ nv.name = input.name ∧
    nv.description = input.description ∧ nv.config = input.config ∧
    nv.originalQuery = input.originalQuery := by
  simp only [viewActions.save, Bool.not_true, Bool.false_eq_true, if_false,
    Except.ok.injEq, Prod.mk.injEq] at hrun
  obtain ⟨h1, h2⟩ := hrun
  subst h1
  subst h2
  refine ⟨rfl, rfl, rfl, rfl, hfresh, rfl, rfl, rfl, rfl, rfl, rfl, rfl,
    rfl⟩

theorem save_appends_fresh_view_witness :
    (applyOp st1 (Op.save input0 "b" 5)).savedViews =
      st1.savedViews ++ [nv4] ∧ nv4.usageCount = 0 ∧ nv4.createdAt = 5 ∧
      nv4.updatedAt = 5 ∧ nv4.lastUsed = 5 := by
  have h := save_appends_fresh_view st1 input0 "b" 5
    (applyOp st1 (Op.save input0 "b" 5)) nv4 rfl (by decide)
  exact ⟨h.1, h.2.2.2.2.2.2.2.2.1, h.2.2.2.2.2.1, h.2.2.2.2.2.2.1,
    h.2.2.2.2.2.2.2.1⟩

/-- C5: `save` succeeds whenever the environment is a browser — even on a
state already holding 50 views (the 51st is accepted) and even when the
input's name already exists in the collection — and it fails exactly when
the persistence medium is unavailable. -/
theorem save_never_rejects_full_or_duplicate (s : StoreState Val)
    (input : SavedViewInput Val) (freshId : String) (now : Int)
    (h50 : 50 ≤ s.savedViews.length)
    (hdup : viewActions.nameExists true s input.name none = true) :
    (viewActions.save true s input freshId now).isOk = true ∧
    viewActions.save false s input freshId now =
      .error "Cannot save views on server" := by
  exact ⟨rfl, rfl⟩

theorem save_never_rejects_full_or_duplicate_witness :
    (viewActions.save true st50 input0 "fresh-id" 9).isOk = true ∧
    viewActions.save false st50 input0 "fresh-id" 9 =
      .error "Cannot save views on server" :=
  save_never_rejects_full_or_duplicate st50 input0 "fresh-id" 9 (by decide)
    (by decide)

instance : IsTotal (SavedView Val) byLastUsedDesc :=
  ⟨fun a b => le_total b.lastUsed a.lastUsed⟩

instance : IsTrans (SavedView Val) byLastUsedDesc :=
  ⟨fun _ _ _ hab hbc => le_trans hbc hab⟩

/-- C9: on a browser, `getStorageStats` reports `count` = number of views,
the fixed `limit` 50, and `percentFull = Math.round(100 * count / limit)`
(which equals `2 * count` exactly); off-browser it returns the zero-valued
defaults `{count: 0, limit: 50, percentFull: 0}`. -/
theorem getStorageStats_spec (s : StoreState Val) :
    (viewActions.getStorageStats true s).count = s.savedViews.length ∧
    (viewActions.getStorageStats true s).limit = 50 ∧
    (viewActions.getStorageStats true s).percentFull =
      jsRound (100 * (s.savedViews.length : ℚ) / 50) ∧
    (viewActions.getStorageStats true s).percentFull =
      2 * s.savedViews.length ∧
    viewActions.getStorageStats false s =
      { count := 0, limit := 50, percentFull := 0 } := by
  have harg : ((s.savedViews.length : Int) : ℚ) / ((50 : Int) : ℚ) * 100 =
      100 * (s.savedViews.length : ℚ) / 50 := by
    push_cast
    ring
  have hval : jsRound (100 * (s.savedViews.length : ℚ) / 50) =
      2 * s.savedViews.length := by
    have harg2 : 100 * (s.savedViews.length : ℚ) / 50 =
        ((2 * s.savedViews.length : ℤ) : ℚ) := by
      push_cast
      ring
    rw [jsRound, harg2, Int.floor_int_add]
    norm_num
  refine ⟨rfl, rfl, ?_, ?_, rfl⟩
  · show jsRound (((s.savedViews.length : Int) : ℚ) / ((50 : Int) : ℚ) * 100)
      = _
    rw [harg]
  · show jsRound (((s.savedViews.length : Int) : ℚ) / ((50 : Int) : ℚ) * 100)
      = _
    rw [harg, hval]

/-- C8: `recentViews` contains only views whose `lastUsed` is within
`7 * 24 * 3600 * 1000` ms of the query time, has at most 5 entries, and is
sorted in descending order of `lastUsed`. -/
theorem recentViews_bounded_sorted (views : List (SavedView Val))
    (now : Int) :
    (∀ v ∈ recentViews views now,
        now - 7 * 24 * 3600 * 1000 ≤ v.lastUsed) ∧
    (recentViews views now).length ≤ 5 ∧
    (recentViews views now).Pairwise
      (fun a b => b.lastUsed ≤ a.lastUsed) := by
  refine ⟨?_, ?_, ?_⟩
  · intro v hv
    simp only [recentViews] at hv
    have hv1 := List.mem_of_mem_take hv
    have hv2 := (List.perm_insertionSort byLastUsedDesc _).mem_iff.mp hv1
    have hb' := of_decide_eq_true (List.mem_filter.mp hv2).2
    omega
  · exact List.length_take_le 5 _
  · exact List.Pairwise.sublist (List.take_sublist 5 _)
      (List.sorted_insertionSort byLastUsedDesc _)

def rv1 : SavedView Unit := mkView "r1" "R1" 0 0 0 100

theorem recentViews_bounded_sorted_witness :
    100 - 7 * 24 * 3600 * 1000 ≤ rv1.lastUsed ∧
    (recentViews [rv1] 100).length ≤ 5 :=
  ⟨(recentViews_bounded_sorted [rv1] 100).1 rv1 (by decide),
    (recentViews_bounded_sorted [rv1] 100).2.1⟩

/-- Finding by id commutes with mapping an id-preserving function. -/
theorem find?_map_id_preserved (l : List (SavedView Val))
    (f : SavedView Val → SavedView Val) (hf : ∀ v, (f v).id = v.id)
    (j : String) :
    (l.map f).find? (fun v => v.id == j) =
      (l.find? (fun v => v.id == j)).map f := by
  rw [List.find?_map]
  have hp : ((fun v : SavedView Val => v.id == j) ∘ f) =
      (fun v : SavedView Val => v.id == j) := by
    funext v
    simp [Function.comp, hf]
  rw [hp]

/-- C6: in a browser, `load(id)` on a present id bumps that view's
`usageCount` by exactly 1 and sets its `lastUsed` to `now`, leaving every
other field and every other view untouched, sets `activeViewId = id` and
clears `activeViewModified`; on an absent id it changes nothing and
signals not-found by returning `undefined`. -/
theorem load_found_and_missing_spec (s : StoreState Val) (i : String)
    (now : Int) (s' : StoreState Val) (r : Option (SavedView Val))
    (hrun : viewActions.load true s i now = .ok (s', r)) :
    (∀ v, lookupView s i = some v →
      r = some v ∧ s'.activeViewId = some i ∧
      s'.activeViewModified = false ∧
      s'.savedViews.length = s.savedViews.length ∧
      ∀ k (hk : k < s.savedViews.length) (hk' : k < s'.savedViews.length),
        ((s.savedViews.get ⟨k, hk⟩).id ≠ i →
          s'.savedViews.get ⟨k, hk'⟩ = s.savedViews.get ⟨k, hk⟩) ∧
        ((s.savedViews.get ⟨k, hk⟩).id = i →
          (s'.savedViews.get ⟨k, hk'⟩).usageCount =
            (s.savedViews.get ⟨k, hk⟩).usageCount + 1 ∧
          (s'.savedViews.get ⟨k, hk'⟩).lastUsed = now ∧
          (s'.savedViews.get ⟨k, hk'⟩).id =
            (s.savedViews.get ⟨k, hk⟩).id ∧
          (s'.savedViews.get ⟨k, hk'⟩).name =
            (s.savedViews.get ⟨k, hk⟩).name ∧
          (s'.savedViews.get ⟨k, hk'⟩).description =
            (s.savedViews.get ⟨k, hk⟩).description ∧
          (s'.savedViews.get ⟨k, hk'⟩).config =
            (s.savedViews.get ⟨k, hk⟩).config ∧
          (s'.savedViews.get ⟨k, hk'⟩).originalQuery =
            (s.savedViews.get ⟨k, hk⟩).originalQuery ∧
          (s'.savedViews.get ⟨k, hk'⟩).createdAt =
            (s.savedViews.get ⟨k, hk⟩).createdAt ∧
          (s'.savedViews.get ⟨k, hk'⟩).updatedAt =
            (s.savedViews.get ⟨k, hk⟩).updatedAt)) ∧
    (lookupView s i = none → s' = s ∧ r = none) := by
  simp only [viewActions.load, Bool.not_true, Bool.false_eq_true,
    if_false] at hrun
  rcases hfind : s.savedViews.find? (fun v => v.id == i) with _ | view
  · rw [hfind] at hrun
    simp only [Except.ok.injEq, Prod.mk.injEq] at hrun
    obtain ⟨h1, h2⟩ := hrun
    constructor
    · intro v hv
      rw [lookupView, hfind] at hv
      cases hv
    · intro _
      exact ⟨h1.symm, h2.symm⟩
  · rw [hfind] at hrun
    simp only [Except.ok.injEq, Prod.mk.injEq] at hrun
    obtain ⟨h1, h2⟩ := hrun
    subst h1
    constructor
    · intro v hv
      rw [lookupView, hfind] at hv
      injection hv with hv
      subst hv
      refine ⟨h2.symm, rfl, rfl, by simp, ?_⟩
      intro k hk hk'
      constructor
      · intro hne
        simp only [List.get_eq_getElem, List.getElem_map]
        rw [if_neg]
        simp only [beq_iff_eq]
        exact hne
      · intro heq
        simp only [List.get_eq_getElem, List.getElem_map]
        rw [if_pos (by simp only [beq_iff_eq]; exact heq)]
        exact ⟨rfl, rfl, rfl, rfl, rfl, rfl, rfl, rfl, rfl⟩
    · intro hv
      rw [lookupView, hfind] at hv
      cases hv

def stL : StoreState Unit :=
  { savedViews := [mkView "a" "A" 0 0 3 2, mkView "b" "B" 0 0 0 0],
    activeViewId := none, activeViewModified := true }

def stL' : StoreState Unit :=
  { savedViews := [mkView "a" "A" 0 0 4 7, mkView "b" "B" 0 0 0 0],
    activeViewId := some "a", activeViewModified := false }

theorem load_found_and_missing_spec_witness :
    stL'.activeViewId = some "a" ∧ stL'.activeViewModified = false ∧
    stL'.savedViews.length = stL.savedViews.length := by
  have h := (load_found_and_missing_spec stL "a" 7 stL'
    (some (mkView "a" "A" 0 0 3 2)) (by rfl)).1 (mkView "a" "A" 0 0 3 2)
    (by rfl)
  exact ⟨h.2.1, h.2.2.1, h.2.2.2.1⟩

/-- C10: the `SavedView` returned by `load(id)` is the snapshot found
before the usage-statistics update: its `usageCount` and `lastUsed` are the
pre-increment values, while the view persisted in the resulting state
carries `usageCount + 1` and `lastUsed = now`. -/
theorem load_returns_pre_snapshot (s : StoreState Val) (i : String)
    (now : Int) (s' : StoreState Val) (r : Option (SavedView Val))
    (v : SavedView Val)
    (hfind : lookupView s i = some v)
    (hrun : viewActions.load true s i now = .ok (s', r)) :
    r = some v ∧
    ∀ w, lookupView s' i = some w →
      w.usageCount = v.usageCount + 1 ∧ w.lastUsed = now := by
  simp only [viewActions.load, Bool.not_true, Bool.false_eq_true,
    if_false] at hrun
  rw [lookupView] at hfind
  rw [hfind] at hrun
  simp only [Except.ok.injEq, Prod.mk.injEq] at hrun
  obtain ⟨h1, h2⟩ := hrun
  subst h1
  refine ⟨h2.symm, ?_⟩
  intro w hw
  rw [lookupView] at hw
  rw [find?_map_id_preserved _ _
    (fun u => by cases h : u.id == i <;> simp [h]) i, hfind] at hw
  injection hw with hw
  have hvi : (v.id == i) = true :=
    @List.find?_some (SavedView Val) (fun u => u.id == i) v s.savedViews
      hfind
  have hw' : ({ v with usageCount := v.usageCount + 1, lastUsed := now } :
      SavedView Val) = w := by
    rw [← hw]
    simp [hvi]
  rw [← hw']
  exact ⟨rfl, rfl⟩

theorem load_returns_pre_snapshot_witness :
    (some (mkView "a" "A" 0 0 3 2) :
      Option (SavedView Unit)) = some (mkView "a" "A" 0 0 3 2) ∧
    (mkView "a" "A" 0 0 4 7).usageCount =
      (mkView "a" "A" 0 0 3 2).usageCount + 1 ∧
    (mkView "a" "A" 0 0 4 7).lastUsed = 7 := by
  have h := load_returns_pre_snapshot stL "a" 7 stL'
    (some (mkView "a" "A" 0 0 3 2)) (mkView "a" "A" 0 0 3 2) (by rfl)
    (by rfl)
  have h2 := h.2 (mkView "a" "A" 0 0 4 7) (by rfl)
  exact ⟨h.1, h2.1, h2.2⟩

/-- C7: in a browser, deleting the active view removes it and clears both
`activeViewId` and `activeViewModified`; deleting an existing non-active
view removes it but leaves both transient fields unchanged; deleting an
absent id leaves the whole state unchanged. -/
theorem delete_spec (s : StoreState Val) (i : String) (s' : StoreState Val)
    (hrun : viewActions.delete true s i = .ok s') :
    ((lookupView s i).isSome = true → s.activeViewId = some i →
      s'.savedViews = s.savedViews.filter (fun v => !(v.id == i)) ∧
      lookupView s' i = none ∧
      s'.activeViewId = none ∧ s'.activeViewModified = false) ∧
    ((lookupView s i).isSome = true → s.activeViewId ≠ some i →
      s'.savedViews = s.savedViews.filter (fun v => !(v.id == i)) ∧
      lookupView s' i = none ∧
      s'.activeViewId = s.activeViewId ∧
      s'.activeViewModified = s.activeViewModified) ∧
    (lookupView s i = none → s' = s) := by
  simp only [viewActions.delete, Bool.not_true, Bool.false_eq_true,
    if_false] at hrun
  have hfilter : (s.savedViews.filter (fun v => !(v.id == i))).find?
      (fun v => v.id == i) = none := by
    rw [List.find?_eq_none]
    intro x hx
    have hb := (List.mem_filter.mp hx).2
    simp only [Bool.not_eq_eq_eq_not, Bool.not_true] at hb
    simp [hb]
  rcases hfind : s.savedViews.find? (fun v => v.id == i) with _ | view
  · rw [hfind] at hrun
    injection hrun with h1
    refine ⟨?_, ?_, fun _ => h1.symm⟩
    · intro hsome _
      rw [lookupView, hfind] at hsome
      cases hsome
    · intro hsome _
      rw [lookupView, hfind] at hsome
      cases hsome
  · rw [hfind] at hrun
    cases hact : (s.activeViewId == some i) with
    | true =>
        rw [hact] at hrun
        simp only [if_true] at hrun
        injection hrun with h1
        subst h1
        have heq : s.activeViewId = some i := by
          have := of_decide_eq_true (by simpa using hact)
          simpa using hact
        refine ⟨fun _ _ => ⟨rfl, hfilter, rfl, rfl⟩, ?_, ?_⟩
        · intro _ hne
          exact absurd heq hne
        · intro hv
          rw [lookupView, hfind] at hv
          cases hv
    | false =>
        rw [hact] at hrun
        simp only [Bool.false_eq_true, if_false] at hrun
        injection hrun with h1
        subst h1
        have hne : s.activeViewId ≠ some i := by
          intro hcontra
          rw [hcontra] at hact
          simp at hact
        refine ⟨?_, fun _ _ => ⟨rfl, hfilter, rfl, rfl⟩, ?_⟩
        · intro _ hactive
          exact absurd hactive hne
        · intro hv
          rw [lookupView, hfind] at hv
          cases hv

def stD : StoreState Unit :=
  { savedViews := [mkView "a" "A" 0 0 0 0, mkView "b" "B" 0 0 0 0],
    activeViewId := some "a", activeViewModified := true }

def stD' : StoreState Unit :=
  { savedViews := [mkView "b" "B" 0 0 0 0], activeViewId := none,
    activeViewModified := false }

theorem delete_spec_witness :
    stD'.savedViews = stD.savedViews.filter (fun v => !(v.id == "a")) ∧
    stD'.activeViewId = none ∧ stD'.activeViewModified = false := by
  have h := (delete_spec stD "a" stD' (by rfl)).1 (by rfl) (by rfl)
  exact ⟨h.1, h.2.2.1, h.2.2.2⟩

def stU : StoreState Unit :=
  { savedViews := [mkView "a" "A" 0 0 0 0], activeViewId := some "a",
    activeViewModified := true }

def patchIdCreated : ViewPatch Unit :=
  { ViewPatch.empty with id := some "b", createdAt := some 99 }

/-- C1 counterexample: the claim says `id` and `createdAt` are immune to
the partial, but `{...v, ...updates, updatedAt: Date.now()}` lets the
partial override them: updating view `"a"` (createdAt 0) with
`{id: "b", createdAt: 99}` persists a view whose id is `"b" ≠ "a"` and
whose createdAt is `99 ≠ 0`. -/
theorem update_overrides_id_createdAt_cex :
    viewActions.update true stU "a" patchIdCreated 5 =
      .ok { savedViews := [mkView "b" "A" 99 5 0 0],
            activeViewId := some "a", activeViewModified := false } ∧
    ("b" : String) ≠ "a" ∧ (99 : Int) ≠ 0 :=
  ⟨rfl, by decide, by decide⟩

/-- C1 (amended): `update(id, partial)` on an existing id shallow-merges
the partial into each stored view with that id, with *every* supplied field
— including `id` and `createdAt` — replacing the stored one; `updatedAt`
is then forced to `now` (a supplied `updatedAt` is ignored); unsupplied
fields keep their stored values; other views, and `activeViewId`, are
unchanged; `activeViewModified` is set to false. -/
theorem update_shallow_merge_spec (s : StoreState Val) (i : String)
    (u : ViewPatch Val) (now : Int) (s' : StoreState Val)
    (hrun : viewActions.update true s i u now = .ok s')
    (hfound : (lookupView s i).isSome = true) :
    s'.activeViewId = s.activeViewId ∧
    s'.activeViewModified = false ∧
    s'.savedViews.length = s.savedViews.length ∧
    ∀ k (hk : k < s.savedViews.length) (hk' : k < s'.savedViews.length),
      ((s.savedViews.get ⟨k, hk⟩).id ≠ i →
        s'.savedViews.get ⟨k, hk'⟩ = s.savedViews.get ⟨k, hk⟩) ∧
      ((s.savedViews.get ⟨k, hk⟩).id = i →
        (s'.savedViews.get ⟨k, hk'⟩).id =
          u.id.getD (s.savedViews.get ⟨k, hk⟩).id ∧
        (s'.savedViews.get ⟨k, hk'⟩).name =
          u.name.getD (s.savedViews.get ⟨k, hk⟩).name ∧
        (s'.savedViews.get ⟨k, hk'⟩).description =
          u.description.getD (s.savedViews.get ⟨k, hk⟩).description ∧
        (s'.savedViews.get ⟨k, hk'⟩).config =
          u.config.getD (s.savedViews.get ⟨k, hk⟩).config ∧
        (s'.savedViews.get ⟨k, hk'⟩).originalQuery =
          u.originalQuery.getD (s.savedViews.get ⟨k, hk⟩).originalQuery ∧
        (s'.savedViews.get ⟨k, hk'⟩).createdAt =
          u.createdAt.getD (s.savedViews.get ⟨k, hk⟩).createdAt ∧
        (s'.savedViews.get ⟨k, hk'⟩).usageCount =
          u.usageCount.getD (s.savedViews.get ⟨k, hk⟩).usageCount ∧
        (s'.savedViews.get ⟨k, hk'⟩).lastUsed =
          u.lastUsed.getD (s.savedViews.get ⟨k, hk⟩).lastUsed ∧
        (s'.savedViews.get ⟨k, hk'⟩).updatedAt = now) := by
  simp only [viewActions.update, Bool.not_true, Bool.false_eq_true,
    if_false] at hrun
  rcases hfind : s.savedViews.find? (fun v => v.id == i) with _ | view
  · rw [lookupView, hfind] at hfound
    cases hfound
  · rw [hfind] at hrun
    injection hrun with h1
    subst h1
    refine ⟨rfl, rfl, by simp, ?_⟩
    intro k hk hk'
    constructor
    · intro hne
      simp only [List.get_eq_getElem, List.getElem_map]
      rw [if_neg]
      simp only [beq_iff_eq]
      exact hne
    · intro heq
      simp only [List.get_eq_getElem, List.getElem_map]
      rw [if_pos (by simp only [beq_iff_eq]; exact heq)]
      exact ⟨rfl, rfl, rfl, rfl, rfl, rfl, rfl, rfl, rfl⟩

def patchName : ViewPatch Unit :=
  { ViewPatch.empty with name := some "X" }

def stU' : StoreState Unit :=
  { savedViews := [mkView "a" "X" 0 7 0 0], activeViewId := some "a",
    activeViewModified := false }

theorem update_shallow_merge_spec_witness :
    stU'.activeViewId = stU.activeViewId ∧
    stU'.activeViewModified = false ∧
    stU'.savedViews.length = stU.savedViews.length := by
  have h := update_shallow_merge_spec stU "a" patchName 7 stU' (by rfl)
    (by rfl)
  exact ⟨h.1, h.2.1, h.2.2.1⟩

/-- The one-field partial `{ name: newName }` that the spec says `rename`
is equivalent to passing to `update`. -/
def namePatch (n : String) : ViewPatch Val :=
  { ViewPatch.empty with name := some n }

def stR : StoreState Unit :=
  { savedViews := [mkView "a" "A" 0 0 0 0], activeViewId := some "a",
    activeViewModified := true }

/-- C2 counterexample: starting from a state whose active view is marked
modified, `rename(id, "X")` and `update(id, {name: "X"})` produce
different states: `update` clears `activeViewModified` to false, `rename`
leaves it true. -/
theorem rename_differs_from_update_cex :
    viewActions.rename true stR "a" "X" 5 =
      .ok { savedViews := [mkView "a" "X" 0 5 0 0],
            activeViewId := some "a", activeViewModified := true } ∧
    viewActions.update true stR "a" (namePatch "X") 5 =
      .ok { savedViews := [mkView "a" "X" 0 5 0 0],
            activeViewId := some "a", activeViewModified := false } ∧
    (true : Bool) ≠ false :=
  ⟨rfl, rfl, by decide⟩

/-- C2 (amended): `rename(id, n)` produces the same `savedViews` and the
same `activeViewId` as `update(id, {name: n})` from the same state, but
the two differ on `activeViewModified`: `rename` always leaves it
unchanged, while `update` clears it to false whenever the id exists (and
leaves it unchanged when it does not). -/
theorem rename_vs_update_spec (s : StoreState Val) (i : String)
    (newName : String) (now : Int) (sR sU : StoreState Val)
    (hR : viewActions.rename true s i newName now = .ok sR)
    (hU : viewActions.update true s i (namePatch newName) now = .ok sU) :
    sR.savedViews = sU.savedViews ∧
    sR.activeViewId = sU.activeViewId ∧
    sR.activeViewModified = s.activeViewModified ∧
    ((lookupView s i).isSome = true → sU.activeViewModified = false) ∧
    (lookupView s i = none → sU.activeViewModified = s.activeViewModified)
    := by
  simp only [viewActions.rename, viewActions.update, Bool.not_true,
    Bool.false_eq_true, if_false] at hR hU
  rcases hfind : s.savedViews.find? (fun v => v.id == i) with _ | view
  · rw [hfind] at hR hU
    injection hR with hR
    injection hU with hU
    subst hR
    subst hU
    refine ⟨rfl, rfl, rfl, ?_, fun _ => rfl⟩
    intro hsome
    rw [lookupView, hfind] at hsome
    cases hsome
  · rw [hfind] at hR hU
    injection hR with hR
    injection hU with hU
    subst hR
    subst hU
    refine ⟨?_, rfl, rfl, fun _ => rfl, ?_⟩
    · rfl
    · intro hnone
      rw [lookupView, hfind] at hnone
      cases hnone

def stRrn : StoreState Unit :=
  { savedViews := [mkView "a" "X" 0 5 0 0], activeViewId := some "a",
    activeViewModified := true }

def stRup : StoreState Unit :=
  { savedViews := [mkView "a" "X" 0 5 0 0], activeViewId := some "a",
    activeViewModified := false }

theorem rename_vs_update_spec_witness :
    stRrn.savedViews = stRup.savedViews ∧
    stRrn.activeViewModified = stR.activeViewModified ∧
    stRup.activeViewModified = false := by
  have h := rename_vs_update_spec stR "a" "X" 5 stRrn stRup (by rfl)
    (by rfl)
  exact ⟨h.1, h.2.2.1, h.2.2.2.1 (by rfl)⟩

theorem evolves_refl (v : SavedView Val) : evolves v v :=
  ⟨rfl, rfl, le_refl _, le_refl _⟩

/-- Filtering out only elements that fail `p` does not change the first
`p`-match. -/
theorem find?_filter_of_imp {α : Type} (l : List α) (p q : α → Bool)
    (h : ∀ a, p a = true → q a = true) :
    (l.filter q).find? p = l.find? p := by
  induction l with
  | nil => rfl
  | cons a l ih =>
      cases hq : q a with
      | true =>
          rw [List.filter_cons_of_pos hq]
          cases hp : p a with
          | true =>
              rw [List.find?_cons_of_pos _ hp, List.find?_cons_of_pos _ hp]
          | false =>
              rw [List.find?_cons_of_neg _ (by simp [hp]),
                List.find?_cons_of_neg _ (by simp [hp])]
              exact ih
      | false =>
          have hp : p a = false := by
            cases hpa : p a with
            | true => exact absurd (h a hpa) (by simp [hq])
            | false => rfl
          rw [List.filter_cons_of_neg (by simp [hq]),
            List.find?_cons_of_neg _ (by simp [hp])]
          exact ih

/-- Common step shape: a state whose collection is an id-preserving map of
the old collection preserves `timesWF` and evolves each tracked view. -/
theorem step_map_state (s : StoreState Val)
    (f : SavedView Val → SavedView Val) (aid : Option String) (amod : Bool)
    (hfid : ∀ v, (f v).id = v.id)
    (hfwf : ∀ v ∈ s.savedViews, v.createdAt ≤ v.updatedAt →
      (f v).createdAt ≤ (f v).updatedAt)
    (hfev : ∀ v ∈ s.savedViews, evolves v (f v))
    (hwf : timesWF s) :
    timesWF { savedViews := s.savedViews.map f, activeViewId := aid,
              activeViewModified := amod } ∧
    ∀ i v w, lookupView s i = some v →
      lookupView { savedViews := s.savedViews.map f, activeViewId := aid,
                   activeViewModified := amod } i = some w →
      evolves v w := by
  constructor
  · intro x hx
    obtain ⟨y, hy, hfy⟩ := List.mem_map.mp hx
    rw [← hfy]
    exact hfwf y hy (hwf y hy)
  · intro i v w hv hw
    simp only [lookupView] at hv hw
    rw [find?_map_id_preserved _ _ hfid i, hv] at hw
    injection hw with hw
    rw [← hw]
    exact hfev v (List.mem_of_find?_eq_some hv)

/-- Common step shape for delete: filtering an id out of the collection
preserves `timesWF` and evolves (indeed fixes) each surviving view. -/
theorem step_filter_state (s : StoreState Val) (j : String)
    (aid : Option String) (amod : Bool) (hwf : timesWF s) :
    timesWF { savedViews := s.savedViews.filter (fun v => !(v.id == j)),
              activeViewId := aid, activeViewModified := amod } ∧
    ∀ i v w, lookupView s i = some v →
      lookupView { savedViews := s.savedViews.filter (fun v => !(v.id == j)),
                   activeViewId := aid, activeViewModified := amod } i =
        some w → evolves v w := by
  constructor
  · intro x hx
    exact hwf x (List.mem_filter.mp hx).1
  · intro i v w hv hw
    simp only [lookupView] at hv hw
    by_cases hij : i = j
    · subst hij
      have hnone : (s.savedViews.filter (fun v => !(v.id == i))).find?
          (fun v => v.id == i) = none := by
        rw [List.find?_eq_none]
        intro x hx
        have hb := (List.mem_filter.mp hx).2
        simp only [Bool.not_eq_eq_eq_not, Bool.not_true] at hb
        simp [hb]
      rw [hnone] at hw
      cases hw
    · rw [find?_filter_of_imp] at hw
      · rw [hv] at hw
        injection hw with hw
        rw [← hw]
        exact evolves_refl v
      · intro a ha
        rw [beq_iff_eq] at ha
        simp [ha, hij]

/-- One operation of a tame, clock-monotone run preserves `timesWF` and
evolves every view that survives it. -/
theorem applyOp_step (s : StoreState Val) (op : Op Val)
    (hwf : timesWF s) (htame : op.tame) (hclock : op.clockOk s) :
    timesWF (applyOp s op) ∧
    ∀ i v w, lookupView s i = some v →
      lookupView (applyOp s op) i = some w → evolves v w := by
  cases op with
  | save input freshId now =>
      have hred : applyOp s (.save input freshId now) =
          { s with savedViews := s.savedViews ++
              [{ id := freshId, name := input.name,
                 description := input.description, config := input.config,
                 originalQuery := input.originalQuery, createdAt := now,
                 updatedAt := now, usageCount := 0, lastUsed := now }] } :=
        rfl
      rw [hred]
      constructor
      · intro x hx
        rcases List.mem_append.mp hx with hx | hx
        · exact hwf x hx
        · rw [List.mem_singleton] at hx
          rw [hx]
      · intro i v w hv hw
        simp only [lookupView, List.find?_append] at hv hw
        rw [hv] at hw
        have hw' : some v = some w := hw
        injection hw' with hw'
        rw [← hw']
        exact evolves_refl v
  | load j now =>
      rcases hfind : s.savedViews.find? (fun v => v.id == j) with _ | view
      · have hred : applyOp s (.load j now) = s := by
          simp only [applyOp, viewActions.load, Bool.not_true,
            Bool.false_eq_true, if_false, hfind]
        rw [hred]
        refine ⟨hwf, fun i v w hv hw => ?_⟩
        rw [hv] at hw
        injection hw with hw
        rw [← hw]
        exact evolves_refl v
      · have hred : applyOp s (.load j now) =
            { savedViews := s.savedViews.map (fun v =>
                if v.id == j then
                  { v with usageCount := v.usageCount + 1, lastUsed := now }
                else v),
              activeViewId := some j, activeViewModified := false } := by
          simp only [applyOp, viewActions.load, Bool.not_true,
            Bool.false_eq_true, if_false, hfind]
        rw [hred]
        refine step_map_state s _ (some j) false ?_ ?_ ?_ hwf
      
        · intro v
          cases h : v.id == j <;> simp [h]
        · intro v hv hle
          cases h : v.id == j <;> simp [h, hle]
        · intro v hv
          have hcl : v.createdAt ≤ now ∧ v.updatedAt ≤ now ∧
              v.lastUsed ≤ now := hclock v hv
          by_cases h : (v.id == j) = true
          · rw [if_pos h]
            refine ⟨rfl, rfl, ?_, hcl.2.2⟩
            show v.usageCount ≤ v.usageCount + 1
            omega
          · rw [if_neg h]
            exact evolves_refl v
  | update j u now =>
      obtain ⟨hid, hcr, huc, hlu⟩ := htame
      rcases hfind : s.savedViews.find? (fun v => v.id == j) with _ | view
      · have hred : applyOp s (.update j u now) = s := by
          simp only [applyOp, viewActions.update, Bool.not_true,
            Bool.false_eq_true, if_false, hfind]
        rw [hred]
        refine ⟨hwf, fun i v w hv hw => ?_⟩
        rw [hv] at hw
        injection hw with hw
        rw [← hw]
        exact evolves_refl v
      · have hred : applyOp s (.update j u now) =
            { savedViews := s.savedViews.map (fun v =>
                if v.id == j then { spreadView v u with updatedAt := now }
                else v),
              activeViewId := s.activeViewId,
              activeViewModified := false } := by
          simp only [applyOp, viewActions.update, Bool.not_true,
            Bool.false_eq_true, if_false, hfind]
        rw [hred]
        refine step_map_state s _ s.activeViewId false ?_ ?_ ?_ hwf
        · intro v
          by_cases h : (v.id == j) = true
          · rw [if_pos h]
            show u.id.getD v.id = v.id
            rw [hid]
            rfl
          · rw [if_neg h]
        · intro v hv _
          have hcl : v.createdAt ≤ now ∧ v.updatedAt ≤ now ∧
              v.lastUsed ≤ now := hclock v hv
          by_cases h : (v.id == j) = true
          · rw [if_pos h]
            show u.createdAt.getD v.createdAt ≤ now
            rw [hcr]
            exact hcl.1
          · rw [if_neg h]
            exact hwf v hv
        · intro v hv
          by_cases h : (v.id == j) = true
          · rw [if_pos h]
            refine ⟨?_, ?_, ?_, ?_⟩
            · show u.id.getD v.id = v.id
              rw [hid]
              rfl
            · show u.createdAt.getD v.createdAt = v.createdAt
              rw [hcr]
              rfl
            · show v.usageCount ≤ u.usageCount.getD v.usageCount
              rw [huc]
              exact le_refl _
            · show v.lastUsed ≤ u.lastUsed.getD v.lastUsed
              rw [hlu]
              exact le_refl _
          · rw [if_neg h]
            exact evolves_refl v
  | rename j n now =>
      rcases hfind : s.savedViews.find? (fun v => v.id == j) with _ | view
      · have hred : applyOp s (.rename j n now) = s := by
          simp only [applyOp, viewActions.rename, Bool.not_true,
            Bool.false_eq_true, if_false, hfind]
        rw [hred]
        refine ⟨hwf, fun i v w hv hw => ?_⟩
        rw [hv] at hw
        injection hw with hw
        rw [← hw]
        exact evolves_refl v
      · have hred : applyOp s (.rename j n now) =
            { savedViews := s.savedViews.map (fun v =>
                if v.id == j then { v with name := n, updatedAt := now }
                else v),
              activeViewId := s.activeViewId,
              activeViewModified := s.activeViewModified } := by
          simp only [applyOp, viewActions.rename, Bool.not_true,
            Bool.false_eq_true, if_false, hfind]
        rw [hred]
        refine step_map_state s _ s.activeViewId s.activeViewModified
          ?_ ?_ ?_ hwf
        · intro v
          cases h : v.id == j <;> simp [h]
        · intro v hv _
          have hcl : v.createdAt ≤ now ∧ v.updatedAt ≤ now ∧
              v.lastUsed ≤ now := hclock v hv
          by_cases h : (v.id == j) = true
          · rw [if_pos h]
            exact hcl.1
          · rw [if_neg h]
            exact hwf v hv
        · intro v hv
          by_cases h : (v.id == j) = true
          · rw [if_pos h]
            exact ⟨rfl, rfl, le_refl _, le_refl _⟩
          · rw [if_neg h]
            exact evolves_refl v
  | del j =>
      rcases hfind : s.savedViews.find? (fun v => v.id == j) with _ | view
      · have hred : applyOp s (.del j) = s := by
          simp only [applyOp, viewActions.delete, Bool.not_true,
            Bool.false_eq_true, if_false, hfind]
        rw [hred]
        refine ⟨hwf, fun i v w hv hw => ?_⟩
        rw [hv] at hw
        injection hw with hw
        rw [← hw]
        exact evolves_refl v
      · cases hact : (s.activeViewId == some j) with
        | true =>
            have hred : applyOp s (.del j) =
                { savedViews :=
                    s.savedViews.filter (fun v => !(v.id == j)),
                  activeViewId := none, activeViewModified := false } := by
              simp [applyOp, viewActions.delete, hfind, hact]
            rw [hred]
            exact step_filter_state s j none false hwf
        | false =>
            have hred : applyOp s (.del j) =
                { savedViews :=
                    s.savedViews.filter (fun v => !(v.id == j)),
                  activeViewId := s.activeViewId,
                  activeViewModified := s.activeViewModified } := by
              simp [applyOp, viewActions.delete, hfind, hact]
            rw [hred]
            exact step_filter_state s j s.activeViewId s.activeViewModified
              hwf

def stC3 : StoreState Unit :=
  { savedViews := [mkView "a" "A" 0 0 5 0], activeViewId := none,
    activeViewModified := false }

def patchCount : ViewPatch Unit :=
  { ViewPatch.empty with usageCount := some 2 }

/-- C3 counterexample: over the one-operation sequence
`[update "a" {usageCount: 2}]`, the stored view's `usageCount` drops from
5 to 2, so `usageCount` is not monotonically non-decreasing (and by the
same mechanism `id` and `createdAt` are mutable, cf. the C1
counterexample). -/
theorem usageCount_not_monotone_cex :
    stC3.savedViews.map (fun v => v.usageCount) = [5] ∧
    (applyOps stC3 [Op.update "a" patchCount 9]).savedViews.map
      (fun v => v.usageCount) = [2] ∧
    ¬ (5 : Int) ≤ 2 :=
  ⟨rfl, rfl, by decide⟩

/-- C3 (amended): for any sequence of store operations in which every
`update` patch leaves the store-managed fields (`id`, `createdAt`,
`usageCount`, `lastUsed`) unsupplied, and whose `Date.now()` values never
lie before a timestamp already stored (monotone clock), the invariants
hold: `createdAt ≤ updatedAt` everywhere is preserved, and any view that
survives the whole sequence keeps its `id` and `createdAt` and its
`usageCount` and `lastUsed` never decrease. Without the tameness
restriction the claim is false (see the counterexample). -/
theorem store_lifetime_invariants (s : StoreState Val)
    (ops : List (Op Val)) (hwf : timesWF s)
    (htame : ∀ op ∈ ops, op.tame) (hclock : opsClockOk s ops) :
    timesWF (applyOps s ops) ∧
    ∀ i v w, lookupView s i = some v → trackedAlive s ops i →
      lookupView (applyOps s ops) i = some w →
      w.id = v.id ∧ w.createdAt = v.createdAt ∧
      v.usageCount ≤ w.usageCount ∧ v.lastUsed ≤ w.lastUsed := by
  induction ops generalizing s with
  | nil =>
      refine ⟨hwf, fun i v w hv _ hw => ?_⟩
      have hw' : lookupView s i = some w := hw
      rw [hv] at hw'
      injection hw' with hw'
      subst hw'
      exact ⟨rfl, rfl, le_refl _, le_refl _⟩
  | cons op rest ih =>
      obtain ⟨hc1, hc2⟩ := hclock
      have hstep := applyOp_step s op hwf
        (htame op (List.mem_cons_self op rest)) hc1
      have hrest := ih (applyOp s op) hstep.1
        (fun o ho => htame o (List.mem_cons_of_mem op ho)) hc2
      refine ⟨hrest.1, ?_⟩
      intro i v w hv htr hw
      obtain ⟨halive, htr'⟩ := htr
      rcases hmid : lookupView (applyOp s op) i with _ | vmid
      · rw [hmid] at halive
        cases halive
      · have h1 := hstep.2 i v vmid hv hmid
        have h2 := hrest.2 i vmid w hmid htr' hw
        exact ⟨h2.1.trans h1.1, h2.2.1.trans h1.2.1,
          le_trans h1.2.2.1 h2.2.2.1, le_trans h1.2.2.2 h2.2.2.2⟩

def vW : SavedView Unit := mkView "a" "A" 0 0 0 0

def vW' : SavedView Unit := mkView "a" "A" 0 0 1 5

def stW : StoreState Unit :=
  { savedViews := [vW], activeViewId := none, activeViewModified := false }

theorem store_lifetime_invariants_witness :
    vW'.id = vW.id ∧ vW'.createdAt = vW.createdAt ∧
    vW.usageCount ≤ vW'.usageCount ∧ vW.lastUsed ≤ vW'.lastUsed := by
  have hwf : timesWF stW := by
    intro v hv
    have hv' : v ∈ [vW] := hv
    rw [List.mem_singleton] at hv'
    subst hv'
    decide
  have htame : ∀ op ∈ ([Op.load "a" 5] : List (Op Unit)), op.tame := by
    intro op hop
    rw [List.mem_singleton] at hop
    subst hop
    trivial
  have hclock : opsClockOk stW [Op.load "a" 5] := by
    refine ⟨?_, trivial⟩
    intro v hv
    have hv' : v ∈ [vW] := hv
    rw [List.mem_singleton] at hv'
    subst hv'
    exact ⟨by decide, by decide, by decide⟩
  exact (store_lifetime_invariants stW [Op.load "a" 5] hwf htame
    hclock).2 "a" vW vW' (by rfl) ⟨by rfl, trivial⟩ (by rfl)
